import Mathlib

/-!
Verification of the svtk split-read breakpoint test engine and the VCF
standardization pass.

The `SVTK` namespace embeds `src/svtk/pesr/sr_test.py`:
  * `load_counts` — evidence retrieval with the `pos ≤ 0` sentinel and the
    strand-derived clip-orientation filter (lines 71–92);
  * `scanResults` / `testCoord` — the per-end window scan `_test_coord`
    (lines 107–130): one candidate per position in
    `range(coord - window, coord + window + 1)`, then selection of the row
    that comes first when sorted by `(log_pval, dist)` both descending;
  * `poisson_cdf` / `score` — the Poisson enrichment significance
    `|log10(poisson.cdf(background, called))|` (lines 96–98), modelled over ℝ;
  * `testTotal` — `_test_total` (lines 94–105);
  * `test_record` — the three-row result assembly (lines 25–42).
The base class `PESRTest.test` (file `pesr_test.py`, not part of the sources
here) only supplies the per-position summary statistics; it is abstracted as
an explicit function argument `test : ℤ → TestStats _` (resp.
`String → ℤ → Char → TestStats ℝ`), which the scan structure does not inspect.

The `SVTools` namespace embeds `src/svtools/standardize.py`.
-/

namespace SVTK

/-- One row of the split-count table: the fields of a tabix line after
`l.split('\t')` with columns `chrom pos clip count sample` and the
`count` column cast to int (lines 80–86). -/
structure CountRecord where
  chrom : String
  pos : ℤ
  clip : String
  count : ℤ
  sample : String
deriving DecidableEq

/-- Line 89: `clip = 'right' if strand == '+' else 'left'`. -/
def clipOf (strand : Char) : String :=
  if strand = '+' then "right" else "left"

/-- `SRTest.load_counts` (lines 71–92).  The tabix countfile is the function
`fetch`: it is consulted only in the `pos > 0` branch, mirroring
`if pos > 0: lines = self.countfile.fetch(region) else: lines = []`;
the result is then restricted to the clip orientation derived from the
strand (lines 88–90). -/
def load_counts (fetch : String → ℤ → List CountRecord)
    (chrom : String) (pos : ℤ) (strand : Char) : List CountRecord :=
  let lines := if pos > 0 then fetch chrom pos else []
  lines.filter (fun r => r.clip = clipOf strand)

/-- The triple returned by the per-position test `self.test` — the summary
statistics `called`, `background` and the significance `log_pval`
(docstring lines 58–63).  The value type is a parameter: the pipeline
instantiates it with ℝ. -/
structure TestStats (σ : Type) where
  called : σ
  background : σ
  log_pval : σ
deriving DecidableEq

/-- One row of the per-position results frame built in `_test_coord`
(lines 115–121): the test statistics plus `pos` and
`dist = np.abs(pos - coord)`. -/
structure PosResult (σ : Type) where
  called : σ
  background : σ
  log_pval : σ
  pos : ℤ
  dist : ℕ
deriving DecidableEq, Inhabited

/-- The body of the loop of `_test_coord` (lines 117–120): the test result at
position `p` together with `pos` and `dist = np.abs(pos - coord)`. -/
def posRow {σ : Type} (test : ℤ → TestStats σ) (coord p : ℤ) : PosResult σ :=
  ⟨(test p).called, (test p).background, (test p).log_pval, p, (p - coord).natAbs⟩

/-- The loop of `_test_coord` (lines 115–123): one `PosResult` for every
`pos in range(coord - window, coord + window + 1)`, in order. -/
def scanResults {σ : Type} (test : ℤ → TestStats σ) (coord : ℤ) (window : ℕ) :
    List (PosResult σ) :=
  (List.range (2 * window + 1)).map
    (fun (i : ℕ) => posRow test coord (coord - window + (i : ℤ)))

/-- One comparison step of the selection on line 127–128: the accumulator is
replaced exactly when the candidate row strictly precedes it in the
`(log_pval, dist)` descending order used by
`sort_values(['log_pval', 'dist'], ascending=False)`. -/
def betterStep {σ : Type} [LinearOrder σ] (acc r : PosResult σ) : PosResult σ :=
  if acc.log_pval < r.log_pval ∨ (acc.log_pval = r.log_pval ∧ acc.dist < r.dist)
  then r else acc

/-- Lines 127–128: sort the rows by `(log_pval, dist)` descending and take
`iloc[0]` — i.e. pick a row that is maximal in the lexicographic
`(log_pval, dist)` order. -/
def selectBest {σ : Type} [LinearOrder σ] [Inhabited σ]
    (l : List (PosResult σ)) : PosResult σ :=
  l.tail.foldl betterStep (l.headD default)

/-- `_test_coord`ʼs scan over one predicted coordinate (lines 114–130),
with the per-position test supplied as a function. -/
def testCoord {σ : Type} [LinearOrder σ] [Inhabited σ]
    (test : ℤ → TestStats σ) (coord : ℤ) (window : ℕ) : PosResult σ :=
  selectBest (scanResults test coord window)

/-- The row order `(log_pval, dist)` descending, as a reflexive relation:
`r` comes no earlier than `s` when sorted descending. -/
def lexLE {σ : Type} [LinearOrder σ] (r s : PosResult σ) : Prop :=
  r.log_pval < s.log_pval ∨ (r.log_pval = s.log_pval ∧ r.dist ≤ s.dist)

/-- `scipy.stats.poisson.cdf k mu` over ℝ: `P(X ≤ ⌊k⌋)` for a Poisson
variable with rate `mu`, i.e. `exp (-mu) · ∑_{i=0}^{⌊k⌋} mu^i / i!`,
and `0` for `k < 0` (scipy's argument order: quantile first, rate second). -/
noncomputable def poisson_cdf (k mu : ℝ) : ℝ :=
  if k < 0 then 0
  else Real.exp (-mu) * ∑ i in Finset.range (Int.toNat ⌊k⌋ + 1),
    mu ^ i / (Nat.factorial i : ℝ)

/-- Lines 97–98: `pval = ss.poisson.cdf(total.background, total.called)` and
`np.abs(np.log10(pval))` — the enrichment significance of a
(called, background) pair of summary statistics. -/
noncomputable def score (called background : ℝ) : ℝ :=
  |Real.logb 10 (poisson_cdf background called)|

/-- Written from the spec's words, for refinement against `score`:
"the cumulative probability of observing at most `backgroundStat` events"
under a Poisson model with rate λ, as the sum of Mathlib's Poisson
probability mass function over `0 .. ⌊k⌋`. -/
noncomputable def spec_poisson_le (lam : NNReal) (k : ℝ) : ℝ :=
  ∑ i in Finset.range (Int.toNat ⌊k⌋ + 1), ProbabilityTheory.poissonPMFReal lam i

/-- Written from the spec's words: `significance = |log10 p|` with
`p = P(X ≤ backgroundStat | λ = calledStat)`. -/
noncomputable def spec_significance (lam : NNReal) (k : ℝ) : ℝ :=
  |Real.logb 10 (spec_poisson_le lam k)|

/-- The row produced by `_test_total` (lines 94–105): summed statistics,
their significance, and the dummy metadata `coord = 'sum'`, `pos = 0`. -/
structure TotalResult where
  called : ℝ
  background : ℝ
  log_pval : ℝ
  coord : String
  pos : ℤ

/-- `_test_total` (lines 94–105): sum the `called` and `background` columns
of the per-end results, rescore the summed pair
(`ss.poisson.cdf(total.background, total.called)`, then `|log10 ·|`),
and attach the dummy metadata. -/
noncomputable def testTotal (results : List (PosResult ℝ)) : TotalResult :=
  let tc := (results.map (fun r => r.called)).sum
  let tb := (results.map (fun r => r.background)).sum
  { called := tc, background := tb, log_pval := score tc tb,
    coord := "sum", pos := 0 }

/-- The record fields `test_record` and `_test_coord` read: `record.id`,
`record.chrom`, `record.pos`, `record.stop`, and the two characters of
`record.info['STRANDS']`. -/
structure BreakpointRecord where
  id : String
  chrom : String
  pos : ℤ
  stop : ℤ
  strandA : Char
  strandB : Char

/-- One output row of `test_record`, fields in the column order selected on
lines 40–42: `name coord pos log_pval called background`. -/
structure OutRow where
  name : String
  coord : String
  pos : ℤ
  log_pval : ℝ
  called : ℝ
  background : ℝ

/-- Lines 109–112 of `_test_coord`: `posA` tests `record.pos` on
`STRANDS[0]`, anything else tests `record.stop` on `STRANDS[1]`. -/
def coordOf (rec : BreakpointRecord) (which : String) : ℤ × Char :=
  if which = "posA" then (rec.pos, rec.strandA) else (rec.stop, rec.strandB)

/-- `SRTest.test_record` (lines 25–42): the best row for each of
`posA`, `posB`, then the `_test_total` row, each stamped with `record.id`
and projected to the canonical columns.  `test` abstracts `SRTest.test`
(chrom, position, strand ↦ summary statistics). -/
noncomputable def test_record (rec : BreakpointRecord)
    (test : String → ℤ → Char → TestStats ℝ) (window : ℕ) : List OutRow :=
  let bestA := testCoord (fun p => test rec.chrom p (coordOf rec "posA").2)
    (coordOf rec "posA").1 window
  let bestB := testCoord (fun p => test rec.chrom p (coordOf rec "posB").2)
    (coordOf rec "posB").1 window
  let total := testTotal [bestA, bestB]
  [ ⟨rec.id, "posA", bestA.pos, bestA.log_pval, bestA.called, bestA.background⟩,
    ⟨rec.id, "posB", bestB.pos, bestB.log_pval, bestB.called, bestB.background⟩,
    ⟨rec.id, total.coord, total.pos, total.log_pval, total.called, total.background⟩ ]

/-- Fixture for the C1 witness: identical significance at every position, so
selection is decided by the distance tie-break alone. -/
def wTestC1 : ℤ → TestStats ℕ := fun _ => ⟨0, 0, 5⟩

/-- Fixture for the C3 witness. -/
def wTestC3 : ℤ → TestStats ℕ := fun _ => ⟨1, 2, 3⟩

/-- Fixture store for the C6 witness. -/
def wFetchC6a : String → ℤ → List CountRecord :=
  fun _ _ => [⟨"chr1", 5, "right", 3, "s1"⟩]

/-- Second fixture store for the C6 witness (differs from `wFetchC6a`). -/
def wFetchC6b : String → ℤ → List CountRecord := fun _ _ => []

/-- Fixture store for the C8 witness: one left-clip and one right-clip row. -/
def wFetchC8 : String → ℤ → List CountRecord :=
  fun _ _ => [⟨"chr1", 5, "left", 2, "s1"⟩, ⟨"chr1", 5, "right", 4, "s2"⟩]

end SVTK

namespace SVTools

/-- A genotype tuple, e.g. `(0, 1)`, as stored under the `GT` FORMAT key. -/
abbrev Genotype := List (Option ℤ)

/-- Per-sample FORMAT data of an input record: the `GT` entry plus whatever
other FORMAT fields the record carries (which `standardize_record` does
not copy). -/
structure SampleFormat where
  gt : Genotype
  other : List (String × String)
deriving DecidableEq

/-- The fields of an input `pysam.VariantRecord` that `standardize_record`
reads or ignores: basic data, filters, the INFO fields named in the module
docstring, and per-sample FORMAT data. -/
structure RawVariantRecord where
  chrom : String
  pos : ℤ
  id : String
  ref : String
  alts : List String
  filters : List String
  svtype : String
  chr2 : String
  endPos : ℤ
  svlen : ℤ
  strands : String
  samples : List (String × SampleFormat)

/-- The INFO fields `standardize_record` writes (lines 70–74). -/
structure StdInfo where
  svtype : String
  chr2 : String
  endPos : ℤ
  svlen : ℤ
  source : String

/-- An output `pysam.VariantRecord`. -/
structure StdVariantRecord where
  chrom : String
  pos : ℤ
  id : String
  ref : String
  alts : List String
  filters : List String
  info : StdInfo
  samples : List (String × Genotype)

/-- `std_vcf.new_record()` (line 37): a fresh record with no filters, empty
basic data and INFO, and no sample data yet. -/
def newRecord : StdVariantRecord :=
  { chrom := "", pos := 0, id := "", ref := "", alts := [], filters := [],
    info := { svtype := "", chr2 := "", endPos := 0, svlen := 0, source := "" },
    samples := [] }

/-- `standardize_record` (lines 42–80): copy the basic data, add `PASS` to
the filters, write the INFO fields exactly as on lines 70–74
(`CHR2 = raw.chrom`, `END = raw.pos + 1`, `SVLEN = 0`,
`SOURCE = 'source'`), and copy each sample's `GT` (lines 77–78; sample
names key a dict in pysam, so the loop yields one entry per sample). -/
def standardize_record (raw : RawVariantRecord) (std : StdVariantRecord) :
    StdVariantRecord :=
  { std with
    chrom := raw.chrom, pos := raw.pos, id := raw.id, ref := raw.ref,
    alts := raw.alts,
    filters := std.filters ++ ["PASS"],
    info := { svtype := raw.svtype, chr2 := raw.chrom, endPos := raw.pos + 1,
              svlen := 0, source := "source" },
    samples := raw.samples.map (fun p => (p.1, p.2.gt)) }

/-- `standardize_vcf` (lines 20–39): one new standardized record per input
record, in input order. -/
def standardize_vcf (raws : List RawVariantRecord) : List StdVariantRecord :=
  raws.map (fun raw => standardize_record raw newRecord)

end SVTools

namespace SVTK

theorem lexLE_rfl {σ : Type} [LinearOrder σ] (r : PosResult σ) : lexLE r r :=
  Or.inr ⟨rfl, le_refl _⟩

theorem lexLE_trans {σ : Type} [LinearOrder σ] {a b c : PosResult σ}
    (hab : lexLE a b) (hbc : lexLE b c) : lexLE a c := by
  rcases hab with h1 | ⟨e1, d1⟩
  · rcases hbc with h2 | ⟨e2, d2⟩
    · exact Or.inl (lt_trans h1 h2)
    · exact Or.inl (by rw [← e2]; exact h1)
  · rcases hbc with h2 | ⟨e2, d2⟩
    · exact Or.inl (by rw [e1]; exact h2)
    · exact Or.inr ⟨e1.trans e2, le_trans d1 d2⟩

theorem betterStep_le_left {σ : Type} [LinearOrder σ] (acc r : PosResult σ) :
    lexLE acc (betterStep acc r) := by
  unfold betterStep
  split_ifs with h
  · rcases h with h | ⟨e, d⟩
    · exact Or.inl h
    · exact Or.inr ⟨e, le_of_lt d⟩
  · exact lexLE_rfl _

theorem betterStep_le_right {σ : Type} [LinearOrder σ] (acc r : PosResult σ) :
    lexLE r (betterStep acc r) := by
  unfold betterStep
  split_ifs with h
  · exact lexLE_rfl _
  · push_neg at h
    rcases h.1.lt_or_eq with hlt | heq
    · exact Or.inl hlt
    · exact Or.inr ⟨heq, h.2 heq.symm⟩

theorem betterStep_eq_or {σ : Type} [LinearOrder σ] (acc r : PosResult σ) :
    betterStep acc r = acc ∨ betterStep acc r = r := by
  unfold betterStep
  split_ifs
  · exact Or.inr rfl
  · exact Or.inl rfl

theorem foldl_betterStep_mem {σ : Type} [LinearOrder σ]
    (t : List (PosResult σ)) (acc : PosResult σ) :
    t.foldl betterStep acc ∈ acc :: t := by
  induction t generalizing acc with
  | nil => simp
  | cons r t ih =>
    rw [List.foldl_cons]
    rcases List.mem_cons.mp (ih (betterStep acc r)) with h1 | h1
    · rcases betterStep_eq_or acc r with h2 | h2
      · rw [h1, h2]; exact List.mem_cons_self _ _
      · rw [h1, h2]; exact List.mem_cons_of_mem _ (List.mem_cons_self _ _)
    · exact List.mem_cons_of_mem _ (List.mem_cons_of_mem _ h1)

theorem foldl_betterStep_le {σ : Type} [LinearOrder σ]
    (t : List (PosResult σ)) (acc : PosResult σ) :
    lexLE acc (t.foldl betterStep acc) ∧
      ∀ r ∈ t, lexLE r (t.foldl betterStep acc) := by
  induction t generalizing acc with
  | nil => exact ⟨lexLE_rfl _, by simp⟩
  | cons r t ih =>
    obtain ⟨h1, h2⟩ := ih (betterStep acc r)
    rw [List.foldl_cons]
    refine ⟨lexLE_trans (betterStep_le_left acc r) h1, ?_⟩
    intro x hx
    rcases List.mem_cons.mp hx with rfl | hx
    · exact lexLE_trans (betterStep_le_right acc x) h1
    · exact h2 x hx

theorem scanResults_length {σ : Type} (test : ℤ → TestStats σ) (coord : ℤ)
    (window : ℕ) : (scanResults test coord window).length = 2 * window + 1 := by
  unfold scanResults
  rw [List.length_map, List.length_range]

theorem scanResults_ne_nil {σ : Type} (test : ℤ → TestStats σ) (coord : ℤ)
    (window : ℕ) : scanResults test coord window ≠ [] := by
  intro h
  have hl := scanResults_length test coord window
  rw [h] at hl
  simp at hl

/-- C1: for every window scan, after computing a significance and a distance
for each of the `2·windowRadius+1` candidates, the scan selects a result that
is first in the `(significance, distance)` doubly-descending order: the chosen
result is one of the candidates, no candidate has higher significance, and
among candidates of equal significance none lies farther from the predicted
position. -/
theorem testCoord_selects_most_significant {σ : Type} [LinearOrder σ]
    [Inhabited σ] (test : ℤ → TestStats σ) (coord : ℤ) (window : ℕ) :
    testCoord test coord window ∈ scanResults test coord window ∧
    ∀ r ∈ scanResults test coord window,
      r.log_pval ≤ (testCoord test coord window).log_pval ∧
      (r.log_pval = (testCoord test coord window).log_pval →
        r.dist ≤ (testCoord test coord window).dist) := by
  obtain ⟨hd, tl, h⟩ :=
    List.exists_cons_of_ne_nil (scanResults_ne_nil test coord window)
  have hbest : testCoord test coord window = tl.foldl betterStep hd := by
    unfold testCoord selectBest
    rw [h]
    simp
  constructor
  · rw [hbest, h]
    exact foldl_betterStep_mem tl hd
  · intro r hr
    rw [h] at hr
    have hle : lexLE r (testCoord test coord window) := by
      rw [hbest]
      rcases List.mem_cons.mp hr with rfl | hr2
      · exact (foldl_betterStep_le tl r).1
      · exact (foldl_betterStep_le tl hd).2 r hr2
    rcases hle with hlt | ⟨heq, hdist⟩
    · refine ⟨le_of_lt hlt, fun he => ?_⟩
      exact absurd hlt (by rw [he]; exact lt_irrefl _)
    · exact ⟨le_of_eq heq, fun _ => hdist⟩

/-- Witness for C1: with equal significance everywhere (`wTestC1`), the
candidate at the predicted position (distance 0) never beats the selected
row in the doubly-descending order. -/
theorem testCoord_selects_most_significant_witness :
    (⟨0, 0, 5, 10, 0⟩ : PosResult ℕ) ∈ scanResults wTestC1 10 1 ∧
    ((⟨0, 0, 5, 10, 0⟩ : PosResult ℕ).log_pval ≤
        (testCoord wTestC1 10 1).log_pval ∧
      ((⟨0, 0, 5, 10, 0⟩ : PosResult ℕ).log_pval =
          (testCoord wTestC1 10 1).log_pval →
        (⟨0, 0, 5, 10, 0⟩ : PosResult ℕ).dist ≤ (testCoord wTestC1 10 1).dist)) := by
  have h := testCoord_selects_most_significant wTestC1 10 1
  exact ⟨by decide, h.2 ⟨0, 0, 5, 10, 0⟩ (by decide)⟩

/-- C3: the window scan evaluates exactly `2·windowRadius+1` candidates, and
the evaluated positions are exactly the integers of
`[predictedPosition − windowRadius, predictedPosition + windowRadius]` —
in particular positions `≤ 0` inside that interval are candidates too. -/
theorem scanResults_window {σ : Type} (test : ℤ → TestStats σ) (coord : ℤ)
    (window : ℕ) :
    (scanResults test coord window).length = 2 * window + 1 ∧
    ∀ p : ℤ, (∃ r ∈ scanResults test coord window, r.pos = p) ↔
      coord - window ≤ p ∧ p ≤ coord + window := by
  refine ⟨scanResults_length test coord window, fun p => ?_⟩
  constructor
  · rintro ⟨r, hr, hpos⟩
    obtain ⟨i, hi, hfi⟩ := List.mem_map.mp hr
    rw [List.mem_range] at hi
    have hp : r.pos = coord - window + i := by rw [← hfi]; rfl
    omega
  · rintro ⟨h1, h2⟩
    refine ⟨posRow test coord (coord - window + ((p - (coord - window)).toNat : ℤ)),
      ?_, ?_⟩
    · show posRow test coord _ ∈
        (List.range (2 * window + 1)).map
          (fun (i : ℕ) => posRow test coord (coord - window + (i : ℤ)))
      exact List.mem_map.mpr
        ⟨(p - (coord - window)).toNat, List.mem_range.mpr (by omega), rfl⟩
    · show coord - window + ((p - (coord - window)).toNat : ℤ) = p
      omega

/-- Witness for C3: at `coord = 10`, `window = 2`, the scan has 5 candidates
and position 8 (the left edge) is among them. -/
theorem scanResults_window_witness :
    (scanResults wTestC3 10 2).length = 2 * 2 + 1 ∧
    (∃ r ∈ scanResults wTestC3 10 2, r.pos = 8) := by
  have h := scanResults_window wTestC3 10 2
  exact ⟨h.1, (h.2 8).mpr (by decide)⟩

theorem sum_zero_pow_div_factorial (n : ℕ) :
    ∑ i in Finset.range (n + 1), (0 : ℝ) ^ i / (Nat.factorial i : ℝ) = 1 := by
  rw [Finset.sum_eq_single 0]
  · simp
  · intro b _ hb
    rw [zero_pow hb, zero_div]
  · intro h0
    exact absurd (Finset.mem_range.mpr (Nat.succ_pos n)) h0

/-- C2: the enrichment score of a zero called statistic is 0 for every
nonnegative background statistic: the Poisson CDF at rate 0 is 1, and
`|log10 1| = 0`. -/
theorem score_zero_called (background : ℝ) (h : 0 ≤ background) :
    score 0 background = 0 := by
  unfold score poisson_cdf
  rw [if_neg (not_lt.mpr h), neg_zero, Real.exp_zero, one_mul,
    sum_zero_pow_div_factorial, Real.logb_one, abs_zero]

/-- Witness for C2 at `background = 3`. -/
theorem score_zero_called_witness : (0 : ℝ) ≤ 3 ∧ score 0 3 = 0 :=
  ⟨zero_le_three, score_zero_called 3 zero_le_three⟩

/-- C4: the joint `_test_total` row over the two per-end best rows has
`called` and `background` exactly equal to the respective sums, its
significance is the Poisson enrichment score re-run on the summed pair,
and it carries `coord = "sum"` and `pos = 0`. -/
theorem testTotal_sums (a b : PosResult ℝ) :
    (testTotal [a, b]).called = a.called + b.called ∧
    (testTotal [a, b]).background = a.background + b.background ∧
    (testTotal [a, b]).log_pval =
      score (a.called + b.called) (a.background + b.background) ∧
    (testTotal [a, b]).coord = "sum" ∧
    (testTotal [a, b]).pos = 0 := by
  refine ⟨?_, ?_, ?_, rfl, rfl⟩ <;> simp [testTotal]

/-- C5: the enrichment score equals `|log10 p|` with `p` the cumulative
Poisson probability `P(X ≤ backgroundStat | λ = calledStat)` taken from
Mathlib's Poisson mass function, and it is nonnegative.  (It is a pure
function of its two arguments, hence deterministic.) -/
theorem score_matches_spec (called : NNReal) (background : ℝ)
    (h : 0 ≤ background) :
    score (called : ℝ) background = spec_significance called background ∧
    0 ≤ score (called : ℝ) background := by
  constructor
  · unfold score spec_significance poisson_cdf spec_poisson_le
      ProbabilityTheory.poissonPMFReal
    rw [if_neg (not_lt.mpr h), Finset.mul_sum]
    congr 1
    refine congrArg _ (Finset.sum_congr rfl fun i _ => ?_)
    rw [mul_div_assoc]
  · exact abs_nonneg _

/-- Witness for C5 at `called = 1`, `background = 2`. -/
theorem score_matches_spec_witness :
    (0 : ℝ) ≤ 2 ∧ 0 ≤ score ((1 : NNReal) : ℝ) 2 :=
  ⟨zero_le_two, (score_matches_spec 1 2 zero_le_two).2⟩

/-- C6: for a candidate position `≤ 0`, `load_counts` returns the empty
evidence set, and its result does not depend on the count store at all —
the store is consulted only when the position is positive. -/
theorem load_counts_sentinel (fetch fetch2 : String → ℤ → List CountRecord)
    (chrom : String) (pos : ℤ) (strand : Char) (h : pos ≤ 0) :
    load_counts fetch chrom pos strand = [] ∧
    load_counts fetch chrom pos strand = load_counts fetch2 chrom pos strand := by
  have hn : ¬ pos > 0 := not_lt.mpr h
  constructor <;> simp [load_counts, hn]

/-- Witness for C6 at position `-2` with a nonempty store versus an empty
store. -/
theorem load_counts_sentinel_witness :
    (-2 : ℤ) ≤ 0 ∧
    (load_counts wFetchC6a "chr1" (-2) '+' = [] ∧
      load_counts wFetchC6a "chr1" (-2) '+' =
        load_counts wFetchC6b "chr1" (-2) '+') :=
  ⟨by decide, load_counts_sentinel wFetchC6a wFetchC6b "chr1" (-2) '+' (by decide)⟩

/-- C8: clip orientation is recomputed from the strand — `'+'` yields
`"right"` and `'-'` yields `"left"` — and the retrieved rows are filtered
to exactly that orientation: a row is in the result iff it was retrieved
(from the store for positive positions, from the empty list otherwise) and
its `clip` equals the orientation derived from the strand. -/
theorem load_counts_orientation :
    clipOf '+' = "right" ∧ clipOf '-' = "left" ∧
    ∀ (fetch : String → ℤ → List CountRecord) (chrom : String) (pos : ℤ)
      (strand : Char) (r : CountRecord),
      r ∈ load_counts fetch chrom pos strand ↔
        r ∈ (if pos > 0 then fetch chrom pos else []) ∧
          r.clip = clipOf strand := by
  refine ⟨by decide, by decide, ?_⟩
  intro fetch chrom pos strand r
  simp [load_counts, List.mem_filter]

/-- Witness for C8: on strand `'-'` the left-clip row of the fixture store is
kept. -/
theorem load_counts_orientation_witness :
    (⟨"chr1", 5, "left", 2, "s1"⟩ : CountRecord) ∈
      load_counts wFetchC8 "chr1" 5 '-' :=
  (load_counts_orientation.2.2 wFetchC8 "chr1" 5 '-' ⟨"chr1", 5, "left", 2, "s1"⟩).mpr
    ⟨by decide, by decide⟩

/-- C7: for every record the formatted output is exactly three rows, in the
order end-A, end-B, joint, labelled `posA`, `posB`, `sum`, each stamped with
the record's id; the `OutRow` fields are in the canonical column order
`name coord pos log_pval called background`, and nothing is filtered or
thresholded. -/
theorem test_record_three_rows (rec : BreakpointRecord)
    (test : String → ℤ → Char → TestStats ℝ) (window : ℕ) :
    (test_record rec test window).length = 3 ∧
    (test_record rec test window).map (fun r => r.coord) =
      ["posA", "posB", "sum"] ∧
    (test_record rec test window).map (fun r => r.name) =
      [rec.id, rec.id, rec.id] := by
  exact ⟨rfl, rfl, rfl⟩

end SVTK

namespace SVTools

/-- C9: `standardize_record` writes the INFO fields unconditionally —
`CHR2` is the input's own chromosome, `END` is the input position plus one,
`SVLEN` is `0` (never `-1`), `SOURCE` is `"source"` — and the output filter
is exactly `PASS`, for every input record whatever its SV type, end
position, second chromosome, or filters. -/
theorem standardize_record_unconditional (raw : RawVariantRecord) :
    (standardize_record raw newRecord).info.chr2 = raw.chrom ∧
    (standardize_record raw newRecord).info.endPos = raw.pos + 1 ∧
    (standardize_record raw newRecord).info.svlen = 0 ∧
    (standardize_record raw newRecord).info.svlen ≠ -1 ∧
    (standardize_record raw newRecord).info.source = "source" ∧
    (standardize_record raw newRecord).filters = ["PASS"] :=
  ⟨rfl, rfl, rfl, by show (0 : ℤ) ≠ -1; decide, rfl, rfl⟩

/-- C10: `standardize_vcf` yields exactly one standardized record per input
record, in input order, and each yielded record copies `chrom`, `pos`, `id`,
`ref`, `alts` and every sample's `GT` from the corresponding input record. -/
theorem standardize_vcf_copies (raws : List RawVariantRecord) :
    (standardize_vcf raws).length = raws.length ∧
    (standardize_vcf raws).map (fun r => r.chrom) = raws.map (fun r => r.chrom) ∧
    (standardize_vcf raws).map (fun r => r.pos) = raws.map (fun r => r.pos) ∧
    (standardize_vcf raws).map (fun r => r.id) = raws.map (fun r => r.id) ∧
    (standardize_vcf raws).map (fun r => r.ref) = raws.map (fun r => r.ref) ∧
    (standardize_vcf raws).map (fun r => r.alts) = raws.map (fun r => r.alts) ∧
    (standardize_vcf raws).map (fun r => r.samples) =
      raws.map (fun r => r.samples.map (fun p => (p.1, p.2.gt))) := by
  unfold standardize_vcf
  refine ⟨by rw [List.length_map], ?_, ?_, ?_, ?_, ?_, ?_⟩ <;>
    · rw [List.map_map]
      rfl

end SVTools
